import Mathlib

/-!
Shallow embedding of the `zenrc-shm` shared-memory primitives:

* `src/zenrc-shm/src/sync.rs` — `SharedRwLock::{new, try_into}` layout arithmetic;
* `src/zenrc-shm/src/ringbuffer.rs` — `MpmcRingBuffer::{new, try_into, write, read}`;
* `src/zenrc-shm/src/shm.rs` — `Drop for MemoryHandle` teardown steps.

Addresses are modelled as natural numbers (a null pointer is the address `0`);
machine `usize` arithmetic wraps modulo `2 ^ 64` where the source wraps
(`AtomicUsize::fetch_add`); a Rust panic (a failed `.unwrap()`, an out-of-bounds
`Vec` index, `x - 1` underflow, `x % 0`) is a distinguished outcome, separate from
a returned `Err`.  OS calls that can fail (`pthread_rwlock_init` and its attribute
setup) are modelled by an oracle mapping the control-block address to the error
code they return there, `none` meaning success.
-/

namespace Zenrc

/-- `std::mem::size_of::<*mut u8>()` on the 64-bit target: the alignment every
`align_offset` call in the source aligns to, and also `size_of::<usize>()` and
`size_of::<AtomicUsize>()`. -/
def ptrSize : Nat := 8

/-- One past the largest `usize` value: machine counters wrap modulo this. -/
def USIZE : Nat := 2 ^ 64

/-- `mem.align_offset(8)`: how many bytes of padding bring `mem` to the next
8-byte boundary. -/
def alignOff (a : Nat) : Nat := (ptrSize - a % ptrSize) % ptrSize

/-- `errors::RwLockError` from `src/zenrc-shm/src/errors.rs`. -/
inductive RwLockError where
  | initError (code : Int)
  | readLockError (code : Int)
  | tryReadLockError (code : Int)
  | writeLockError (code : Int)
  | tryWriteLockError (code : Int)
  | readUnlockError (code : Int)
  | writeUnlockError (code : Int)
  | intoError
  | empty
  deriving DecidableEq

/-- The shared-memory segment contents visible to the layout code:
pointer-sized integer cells (capacity, write-sequence counter), payload cells
(`T` values written through slots), and which addresses hold an initialized
rwlock control block.  `usizes` is total because reading an uninitialized cell
in Rust yields some (garbage) value rather than failing. -/
structure Mem (α : Type) where
  usizes : Nat → Nat
  vals : Nat → Option α
  locks : Nat → Bool

/-- The two pointers a `SharedRwLock<T>` handle stores: `ptr` (control block)
and `data` (payload). -/
structure RwLockHandle where
  ptr : Nat
  data : Nat
  deriving DecidableEq

/-- `SharedRwLock::<T>::new(mem, data)` (`sync.rs`): align `mem` to the pointer
width, initialize the rwlock control block there (the `initErr` oracle says
whether attribute setup / `pthread_rwlock_init` fails at that address), write
the payload immediately after the control block, and return the handle together
with the number of bytes consumed, `padding + size_of::<pthread_rwlock_t>() +
size_of::<T>()`.  `L` is `size_of::<pthread_rwlock_t>()`, `tsz` is
`size_of::<T>()`. -/
def sharedRwLockNew (L tsz : Nat) (initErr : Nat → Option Int) (σ : Mem α)
    (mem : Nat) (data : α) :
    Except RwLockError ((RwLockHandle × Nat) × Mem α) :=
  let padding := alignOff mem
  let ptr := mem + padding
  match initErr ptr with
  | some code => Except.error (RwLockError.initError code)
  | none =>
    let dataPtr := ptr + L
    Except.ok ((⟨ptr, dataPtr⟩, padding + L + tsz),
      { σ with locks := Function.update σ.locks ptr true,
               vals := Function.update σ.vals dataPtr (some data) })

/-- `SharedRwLock::<T>::try_into(mem)` (`sync.rs`): the same offset arithmetic
as `new`, no initialization and no write (the memory is returned unchanged);
fails with `IntoError` when the computed control-block or payload pointer is
null. -/
def sharedRwLockTryInto (α : Type) (L tsz : Nat) (σ : Mem α) (mem : Nat) :
    Except RwLockError ((RwLockHandle × Nat) × Mem α) :=
  let padding := alignOff mem
  let ptr := mem + padding
  let dataPtr := ptr + L
  if ptr = 0 ∨ dataPtr = 0 then Except.error RwLockError.intoError
  else Except.ok ((⟨ptr, dataPtr⟩, padding + L + tsz), σ)

/-- Outcome of a Rust call that returns `Result<A, E>` but may also panic. -/
inductive RustRes (ε α : Type) where
  | ok : α → RustRes ε α
  | err : ε → RustRes ε α
  | panicked : RustRes ε α

/-- The pointers a `MpmcRingBuffer<T>` handle stores: the slot handles, the
`capacity` field pointer and the `write_seq` counter pointer (field names as in
`ringbuffer.rs`; the process-local `read_seq` cursor starts at `0`). -/
structure RBHandle where
  buffer : List RwLockHandle
  capacity : Nat
  writeSeq : Nat
  deriving DecidableEq

/-- The slot-construction loop of `MpmcRingBuffer::new` (`ringbuffer.rs`):
starting at cursor `ptr`, for each of `n` slots compute `slot_padding =
ptr.align_offset(8)`, build a `SharedRwLock` at `ptr + slot_padding` seeded
with the payload default, and advance the cursor by `size + slot_padding`.
The source calls `.unwrap()` on each `SharedRwLock::new` result, so a slot
failure is a panic, not an `Err`.  Returns the slot handles, the final cursor
and the updated memory. -/
def mpmcNewSlots (L tsz : Nat) (initErr : Nat → Option Int) (d : α) :
    Nat → Nat → Mem α → RustRes RwLockError (List RwLockHandle × Nat × Mem α)
  | 0, ptr, σ => RustRes.ok ([], ptr, σ)
  | n + 1, ptr, σ =>
    let slotPadding := alignOff ptr
    match sharedRwLockNew L tsz initErr σ (ptr + slotPadding) d with
    | Except.error _ => RustRes.panicked
    | Except.ok ((slot, size), σ1) =>
      match mpmcNewSlots L tsz initErr d n (ptr + (size + slotPadding)) σ1 with
      | RustRes.ok (slots, ptrF, σF) => RustRes.ok (slot :: slots, ptrF, σF)
      | RustRes.err e => RustRes.err e
      | RustRes.panicked => RustRes.panicked

/-- The owner branch of `MpmcRingBuffer::new` (`ringbuffer.rs`): write
`capacity` at the aligned base, write a zero-initialized counter right after
it, then lay out `capacity` slots starting at
`mem + (size_of::<usize>() + size_of::<AtomicUsize>() + padding)`. -/
def mpmcNewOwner (L tsz : Nat) (initErr : Nat → Option Int) (σ : Mem α)
    (mem : Nat) (capacity : Nat) (d : α) :
    RustRes RwLockError (RBHandle × Mem α) :=
  let padding := alignOff mem
  let capPtr := mem + padding
  let σ1 : Mem α := { σ with usizes := Function.update σ.usizes capPtr capacity }
  let seqPtr := mem + (padding + 8)
  let σ2 : Mem α := { σ1 with usizes := Function.update σ1.usizes seqPtr 0 }
  match mpmcNewSlots L tsz initErr d capacity (mem + (8 + 8 + padding)) σ2 with
  | RustRes.ok (buffer, _ptrF, σF) => RustRes.ok (⟨buffer, capPtr, seqPtr⟩, σF)
  | RustRes.err e => RustRes.err e
  | RustRes.panicked => RustRes.panicked

/-- The slot-reconstruction loop of `MpmcRingBuffer::try_into`
(`ringbuffer.rs`): identical cursor arithmetic to `mpmcNewSlots`, but each slot
is attached with `SharedRwLock::try_into` — whose result the source also
`.unwrap()`s, so `none` models a panic. -/
def mpmcTryIntoSlots (α : Type) (L tsz : Nat) (σ : Mem α) :
    Nat → Nat → Option (List RwLockHandle × Nat)
  | 0, ptr => some ([], ptr)
  | n + 1, ptr =>
    let slotPadding := alignOff ptr
    match sharedRwLockTryInto α L tsz σ (ptr + slotPadding) with
    | Except.error _ => none
    | Except.ok ((slot, size), _) =>
      match mpmcTryIntoSlots α L tsz σ n (ptr + (size + slotPadding)) with
      | some (slots, ptrF) => some (slot :: slots, ptrF)
      | none => none

/-- The pointer-sized cells `MpmcRingBuffer::try_into` dereferences, in order:
it reads the capacity through `cap_ptr` (`let capacity = *cap_ptr;`) before any
validity check runs. -/
def mpmcTryIntoReads (mem : Nat) : List Nat := [mem + alignOff mem]

/-- `MpmcRingBuffer::try_into(mem)` (`ringbuffer.rs`): recompute the capacity
and counter pointers, read the capacity back out of memory, reconstruct the
slots with the same arithmetic `new` used, and only then check `cap_ptr` and
the final cursor `ptr` for null, failing with `IntoError`. -/
def mpmcTryInto (L tsz : Nat) (σ : Mem α) (mem : Nat) :
    RustRes RwLockError (RBHandle × Mem α) :=
  let padding := alignOff mem
  let capPtr := mem + padding
  let capacity := σ.usizes capPtr
  let seqPtr := mem + (padding + 8)
  match mpmcTryIntoSlots α L tsz σ capacity (mem + (8 + 8 + padding)) with
  | none => RustRes.panicked
  | some (buffer, ptrF) =>
    if capPtr = 0 ∨ ptrF = 0 then RustRes.err RwLockError.intoError
    else RustRes.ok (⟨buffer, capPtr, seqPtr⟩, σ)

/-- `MpmcRingBuffer::new` (`ringbuffer.rs`): a non-owner of the segment is
immediately routed to the attach path `try_into`; the owner initializes the
layout. -/
def mpmcNew (L tsz : Nat) (initErr : Nat → Option Int) (owner : Bool)
    (σ : Mem α) (mem : Nat) (capacity : Nat) (d : α) :
    RustRes RwLockError (RBHandle × Mem α) :=
  if owner = false then mpmcTryInto L tsz σ mem
  else mpmcNewOwner L tsz initErr σ mem capacity d

/-- Writing a payload value into a slot's payload cell (what `*guard = value`
does once the slot's exclusive lock is held). -/
def writeVal (σ : Mem α) (addr : Nat) (v : α) : Mem α :=
  { σ with vals := Function.update σ.vals addr (some v) }

/-!
Behavioural model of `MpmcRingBuffer` operations.  The shared cells (capacity,
write-sequence counter, slot payloads) and the process-local cursor are
gathered into one state record; the layout theorems above justify that an
attaching process sees the very same shared cells.  Lock acquisition
(`.write().unwrap()` / `.read().unwrap()`) is modelled as succeeding: the
claims under study concern sequencing and slot selection, not lock faults.
-/

/-- Ring-buffer state: the shared `capacity` cell, the shared `write_seq`
counter, the slot payloads, and the process-local `read_seq` cursor. -/
structure RBState (α : Type) where
  capacity : Nat
  writeSeq : Nat
  slots : List α
  readSeq : Nat
  deriving DecidableEq

/-- Outcome of a Rust call returning no `Result`, which may still panic. -/
inductive WOutcome (σ : Type) where
  | ok : σ → WOutcome σ
  | panicked : σ → WOutcome σ
  deriving DecidableEq

/-- Outcome of `MpmcRingBuffer::read`: a payload value, the `Empty` error, or
a panic (underflow of `read_seq - 1`, `% 0`, or `Vec` index out of bounds). -/
inductive ReadOutcome (α : Type) where
  | ok : α → ReadOutcome α
  | empty : ReadOutcome α
  | panicked : ReadOutcome α
  deriving DecidableEq

/-- `MpmcRingBuffer::write(value)` (`ringbuffer.rs`): `fetch_add(1)` on the
shared counter returns this write's sequence number (the old value; the cell
wraps modulo `2 ^ 64`), the target slot is `write_seq % capacity`
(`% 0` panics), and the slot's payload is overwritten under its exclusive
lock (`self.buffer[index]` panics when out of bounds). -/
def rbWrite (st : RBState α) (v : α) : Nat × WOutcome (RBState α) :=
  let writeSeq := st.writeSeq
  let st1 : RBState α := { st with writeSeq := (st.writeSeq + 1) % USIZE }
  if st1.capacity = 0 then (writeSeq, WOutcome.panicked st1)
  else
    let index := writeSeq % st1.capacity
    if index < st1.slots.length then
      (writeSeq, WOutcome.ok { st1 with slots := st1.slots.set index v })
    else (writeSeq, WOutcome.panicked st1)

/-- The tail of `MpmcRingBuffer::read` after the cursor update: compute
`(read_seq - 1) % capacity` (underflow when the cursor is `0`, `% 0` when the
capacity is `0` — both panics) and return the slot's payload. -/
def rbReadSlot (st : RBState α) : ReadOutcome α × RBState α :=
  if st.readSeq = 0 then (ReadOutcome.panicked, st)
  else if st.capacity = 0 then (ReadOutcome.panicked, st)
  else
    let index := (st.readSeq - 1) % st.capacity
    match st.slots.get? index with
    | some v => (ReadOutcome.ok v, st)
    | none => (ReadOutcome.panicked, st)

/-- `MpmcRingBuffer::read` (`ringbuffer.rs`): load the shared counter; a
cursor at `0` jumps straight to the counter value, a cursor strictly below the
counter advances by one, otherwise the call returns the `Empty` error; then
the slot `(read_seq - 1) % capacity` is consulted. -/
def rbRead (st : RBState α) : ReadOutcome α × RBState α :=
  let seq := st.writeSeq
  if st.readSeq = 0 then
    rbReadSlot { st with readSeq := seq }
  else if st.readSeq < seq then
    rbReadSlot { st with readSeq := st.readSeq + 1 }
  else
    (ReadOutcome.empty, st)

/-- The state `MpmcRingBuffer::new` leaves behind for the owner: counter `0`,
every slot seeded with the payload default, cursor `0`. -/
def rbInit (capacity : Nat) (d : α) : RBState α :=
  { capacity := capacity, writeSeq := 0, slots := List.replicate capacity d,
    readSeq := 0 }

/-- Attaching through `MpmcRingBuffer::try_into`: the shared cells are the
same; only the process-local cursor starts afresh at `0`
(`read_seq: Cell::new(0)`). -/
def rbAttach (st : RBState α) : RBState α := { st with readSeq := 0 }

/-- A sequence of `write` calls, in program order; `none` when one of them
panics.  Returns the handed-out sequence numbers and the final state. -/
def rbWriteN : RBState α → List α → Option (List Nat × RBState α)
  | st, [] => some ([], st)
  | st, v :: vs =>
    match rbWrite st v with
    | (seq, WOutcome.ok st1) =>
      match rbWriteN st1 vs with
      | some (seqs, stF) => some (seq :: seqs, stF)
      | none => none
    | (_, WOutcome.panicked _) => none

/-!
Teardown model for `Drop for MemoryHandle` (`shm.rs`).
-/

/-- The three teardown actions `Drop for MemoryHandle` can attempt. -/
inductive TeardownStep where
  | unmap
  | unlink
  | closeFd
  deriving DecidableEq

/-- The fields of `MemoryHandle` that decide which teardown steps run (name,
size and mapping pointer do not influence the control flow). -/
structure HandleBits where
  fd : Int
  owner : Bool
  deriving DecidableEq

/-- `Drop for MemoryHandle` (`shm.rs`): always `munmap`; then, only when the
stored descriptor is nonzero, `shm_unlink` if this handle is the owner and
`close` the descriptor.  Each step's failure (the three Boolean flags) only
appends an `eprintln` message; control always reaches the next step and the
function always returns normally.  Returns the steps attempted, in order, and
the log lines produced. -/
def memoryHandleDrop (h : HandleBits) (unmapFails unlinkFails closeFails : Bool) :
    List TeardownStep × List String :=
  let r1 : List TeardownStep × List String :=
    ([TeardownStep.unmap], if unmapFails then ["Failed to unmap memory!"] else [])
  if h.fd ≠ 0 then
    let r2 : List TeardownStep × List String :=
      if h.owner then
        (r1.1 ++ [TeardownStep.unlink],
         r1.2 ++ (if unlinkFails then ["Failed to unlink shared memory:"] else []))
      else r1
    (r2.1 ++ [TeardownStep.closeFd],
     r2.2 ++ (if closeFails then ["Failed to close file descriptor:"] else []))
  else r1

/-- A concrete all-zero segment over `Int` payloads, for instantiating the
layout theorems. -/
def memZero : Mem Int :=
  { usizes := fun _ => 0, vals := fun _ => none, locks := fun _ => false }

/-!
Helper lemmas about the layout arithmetic.
-/

theorem alignOff_add (a : Nat) : (a + alignOff a) % ptrSize = 0 := by
  simp only [alignOff, ptrSize]
  omega

theorem alignOff_zero_of_aligned {a : Nat} (h : a % ptrSize = 0) :
    alignOff a = 0 := by
  simp only [alignOff, ptrSize] at h ⊢
  omega

/-!
Helper lemmas about the behavioural model.
-/

theorem rbWrite_ok (st : RBState α) (v : α) (hc : 0 < st.capacity)
    (hl : st.slots.length = st.capacity) :
    rbWrite st v = (st.writeSeq, WOutcome.ok
      { st with writeSeq := (st.writeSeq + 1) % USIZE,
                slots := st.slots.set (st.writeSeq % st.capacity) v }) := by
  have hcz : ¬ st.capacity = 0 := Nat.pos_iff_ne_zero.mp hc
  have hidx : st.writeSeq % st.capacity < st.slots.length := by
    rw [hl]; exact Nat.mod_lt _ hc
  simp only [rbWrite]
  rw [if_neg hcz, if_pos hidx]

theorem rbReadSlot_snd (st : RBState α) : (rbReadSlot st).2 = st := by
  simp only [rbReadSlot]
  split
  · rfl
  · split
    · rfl
    · split <;> rfl

theorem rbReadSlot_ok_of (st : RBState α) (h1 : 1 ≤ st.readSeq)
    (hc : 0 < st.capacity) (hl : st.slots.length = st.capacity) :
    ∃ v, rbReadSlot st = (ReadOutcome.ok v, st) ∧
      st.slots.get? ((st.readSeq - 1) % st.capacity) = some v := by
  have hidx : (st.readSeq - 1) % st.capacity < st.slots.length := by
    rw [hl]; exact Nat.mod_lt _ hc
  obtain ⟨v, hv⟩ : ∃ v, st.slots.get? ((st.readSeq - 1) % st.capacity) = some v := by
    cases h : st.slots.get? ((st.readSeq - 1) % st.capacity) with
    | none => exact absurd (List.get?_eq_none.mp h) (Nat.not_le.mpr hidx)
    | some v => exact ⟨v, rfl⟩
  refine ⟨v, ?_, hv⟩
  simp only [rbReadSlot]
  rw [if_neg (by omega), if_neg (Nat.pos_iff_ne_zero.mp hc), hv]

theorem rbReadSlot_of_ok {st : RBState α} {v : α}
    (h : (rbReadSlot st).1 = ReadOutcome.ok v) :
    1 ≤ st.readSeq ∧ st.slots.get? ((st.readSeq - 1) % st.capacity) = some v := by
  by_cases h0 : st.readSeq = 0
  · simp [rbReadSlot, h0] at h
  by_cases hcz : st.capacity = 0
  · simp [rbReadSlot, h0, hcz] at h
  refine ⟨by omega, ?_⟩
  rcases hg : st.slots.get? ((st.readSeq - 1) % st.capacity) with _ | w
  · simp only [rbReadSlot, if_neg h0, if_neg hcz, hg] at h
    cases h
  · simp only [rbReadSlot, if_neg h0, if_neg hcz, hg] at h
    cases h
    rfl

/-- Unfolding of one `write` step inside `rbWriteN`, plus the full account of
`n` consecutive `write` calls whose sequence numbers stay below the `usize`
wrap: the handed-out numbers are exactly `range' s n`, the shared fields other
than the counter keep their shape, and the slot targeted by the final write
holds the final value. -/
theorem rbWriteN_spec (vs : List α) :
    ∀ st : RBState α, 0 < st.capacity → st.slots.length = st.capacity →
      st.writeSeq + vs.length < USIZE →
      ∃ stF : RBState α,
        rbWriteN st vs = some (List.range' st.writeSeq vs.length, stF) ∧
        stF.capacity = st.capacity ∧
        stF.slots.length = st.slots.length ∧
        stF.readSeq = st.readSeq ∧
        stF.writeSeq = st.writeSeq + vs.length ∧
        (∀ x, vs.getLast? = some x →
          stF.slots.get? ((st.writeSeq + vs.length - 1) % st.capacity)
            = some x) := by
  induction vs with
  | nil =>
    intro st _hc _hl _hb
    exact ⟨st, rfl, rfl, rfl, rfl, by simp, fun x hx => nomatch hx⟩
  | cons v vs ih =>
    intro st hc hl hb
    have hw := rbWrite_ok st v hc hl
    have hmod : (st.writeSeq + 1) % USIZE = st.writeSeq + 1 :=
      Nat.mod_eq_of_lt (by simp only [List.length_cons] at hb; omega)
    set st2 : RBState α := { st with writeSeq := (st.writeSeq + 1) % USIZE, slots := st.slots.set (st.writeSeq % st.capacity) v } with hst2
    have hc2 : 0 < st2.capacity := hc
    have hl2 : st2.slots.length = st2.capacity := by
      simp [hst2, List.length_set, hl]
    have hb2 : st2.writeSeq + vs.length < USIZE := by
      simp only [hst2, hmod]
      simp only [List.length_cons] at hb
      omega
    obtain ⟨stF, hN, hcap, hlen, hread, hwseq, hlast⟩ := ih st2 hc2 hl2 hb2
    have hrange : List.range' st.writeSeq (v :: vs).length
        = st.writeSeq :: List.range' st2.writeSeq vs.length := by
      simp [hst2, hmod, List.range']
    refine ⟨stF, ?_, hcap, by simpa [hst2, List.length_set] using hlen, hread,
      ?_, ?_⟩
    · simp only [rbWriteN, hw, hN, hrange]
    · simp only [hwseq, hst2, hmod, List.length_cons]
      omega
    · intro x hx
      match vs, hx with
      | [], hx =>
        have hxv : x = v := by
          simp only [List.getLast?_singleton, Option.some.injEq] at hx
          exact hx.symm
        subst hxv
        have hstF : st2 = stF := by
          have h0 := hN
          simp [rbWriteN] at h0
          exact h0
        have hidx : st.writeSeq % st.capacity < st.slots.length := by
          rw [hl]; exact Nat.mod_lt _ hc
        rw [← hstF]
        simp only [hst2, List.length_nil, Nat.zero_add, Nat.add_sub_cancel]
        exact List.get?_set_eq_of_lt x hidx
      | w :: ws, hx =>
        have hx' : (w :: ws).getLast? = some x := by
          rwa [List.getLast?_cons_cons] at hx
        have := hlast x hx'
        have heq : st2.writeSeq + (w :: ws).length - 1
            = st.writeSeq + (v :: w :: ws).length - 1 := by
          simp only [hst2, hmod, List.length_cons]
          omega
        rw [heq] at this
        exact this

/-- **C2** (Consumer read policy): for a ring buffer with positive capacity
and a full slot vector, `read` jumps a cursor at the initial value `0` to the
current write-sequence value; a nonzero cursor strictly below the shared
counter advances by exactly one; a nonzero cursor that has caught up makes
`read` return the `Empty` error with the state unchanged; and whenever a
value is returned it is the content of slot `(cursor - 1) % capacity` for the
cursor value after the update. -/
theorem c2_read_policy (st : RBState α) (hc : 0 < st.capacity)
    (hl : st.slots.length = st.capacity) :
    (st.readSeq = 0 → (rbRead st).2.readSeq = st.writeSeq) ∧
    (st.readSeq ≠ 0 → st.readSeq < st.writeSeq →
      (rbRead st).2.readSeq = st.readSeq + 1) ∧
    (st.readSeq ≠ 0 → ¬ st.readSeq < st.writeSeq →
      rbRead st = (ReadOutcome.empty, st)) ∧
    (∀ v, (rbRead st).1 = ReadOutcome.ok v →
      1 ≤ (rbRead st).2.readSeq ∧
      (rbRead st).2.slots.get? (((rbRead st).2.readSeq - 1) % st.capacity)
        = some v) := by
  by_cases h0 : st.readSeq = 0
  · have hr : rbRead st = rbReadSlot { st with readSeq := st.writeSeq } := by
      simp [rbRead, h0]
    refine ⟨fun _ => ?_, fun hne => absurd h0 hne, fun hne => absurd h0 hne,
      fun v hv => ?_⟩
    · rw [hr, rbReadSlot_snd]
    · rw [hr] at hv ⊢
      rw [rbReadSlot_snd]
      exact rbReadSlot_of_ok hv
  · by_cases hlt : st.readSeq < st.writeSeq
    · have hr : rbRead st = rbReadSlot { st with readSeq := st.readSeq + 1 } := by
        simp [rbRead, h0, hlt]
      refine ⟨fun h => absurd h h0, fun _ _ => ?_, fun _ h => absurd hlt h,
        fun v hv => ?_⟩
      · rw [hr, rbReadSlot_snd]
      · rw [hr] at hv ⊢
        rw [rbReadSlot_snd]
        exact rbReadSlot_of_ok hv
    · have hr : rbRead st = (ReadOutcome.empty, st) := by
        simp [rbRead, h0, hlt]
      refine ⟨fun h => absurd h h0, fun _ h => absurd h hlt, fun _ _ => hr,
        fun v hv => ?_⟩
      rw [hr] at hv
      cases hv

/-- **C10** (Slot-index safety): with positive capacity and a full slot
vector, `write`'s slot index `sequence % capacity` is in bounds and `write`
does not panic; and under the precondition that at least one write has
occurred, `read` does not panic, the cursor after the policy step is at least
`1` (so `cursor - 1` does not underflow), and the consulted index
`(cursor - 1) % capacity` is in bounds. -/
theorem c10_slot_index_safety (st : RBState α) (v : α) (hc : 0 < st.capacity)
    (hl : st.slots.length = st.capacity) :
    (st.writeSeq % st.capacity < st.capacity ∧
      (rbWrite st v).2 = WOutcome.ok
        { st with writeSeq := (st.writeSeq + 1) % USIZE,
                  slots := st.slots.set (st.writeSeq % st.capacity) v }) ∧
    (1 ≤ st.writeSeq →
      (rbRead st).1 ≠ ReadOutcome.panicked ∧
      1 ≤ (rbRead st).2.readSeq ∧
      ((rbRead st).2.readSeq - 1) % st.capacity < st.capacity) := by
  constructor
  · exact ⟨Nat.mod_lt _ hc, by rw [rbWrite_ok st v hc hl]⟩
  · intro hw
    by_cases h0 : st.readSeq = 0
    · have hr : rbRead st = rbReadSlot { st with readSeq := st.writeSeq } := by
        simp [rbRead, h0]
      obtain ⟨u, hu, -⟩ := rbReadSlot_ok_of { st with readSeq := st.writeSeq }
        (by simpa using hw) hc hl
      rw [hr, hu]
      exact ⟨by simp, by simpa using hw, Nat.mod_lt _ hc⟩
    · by_cases hlt : st.readSeq < st.writeSeq
      · have hr : rbRead st = rbReadSlot { st with readSeq := st.readSeq + 1 } := by
          simp [rbRead, h0, hlt]
        obtain ⟨u, hu, -⟩ := rbReadSlot_ok_of { st with readSeq := st.readSeq + 1 }
          (by simp) hc hl
        rw [hr, hu]
        exact ⟨by simp, by simp, Nat.mod_lt _ hc⟩
      · have hr : rbRead st = (ReadOutcome.empty, st) := by
          simp [rbRead, h0, hlt]
        rw [hr]
        exact ⟨by simp, by show 1 ≤ st.readSeq; omega, Nat.mod_lt _ hc⟩

/-- **C3** (Write sequencing): a `write` call hands out the current shared
counter value as its sequence number, bumps the counter by one, and overwrites
slot `sequence % capacity` with the value; `N` consecutive `write` calls whose
sequence numbers stay below the `usize` wrap hand out exactly the numbers
`s, s + 1, ..., s + N - 1` (the list `range' s N` — no duplicates, no gaps),
and the counter only increases, ending at `s + N`. -/
theorem c3_write_sequencing (st : RBState α) (v : α) (vs : List α)
    (hc : 0 < st.capacity) (hl : st.slots.length = st.capacity)
    (h1 : st.writeSeq + 1 < USIZE) (hN : st.writeSeq + vs.length < USIZE) :
    rbWrite st v = (st.writeSeq, WOutcome.ok
      { st with writeSeq := st.writeSeq + 1,
                slots := st.slots.set (st.writeSeq % st.capacity) v }) ∧
    ∃ stF : RBState α,
      rbWriteN st vs = some (List.range' st.writeSeq vs.length, stF) ∧
      stF.writeSeq = st.writeSeq + vs.length ∧
      st.writeSeq ≤ stF.writeSeq := by
  constructor
  · rw [rbWrite_ok st v hc hl, Nat.mod_eq_of_lt h1]
  · obtain ⟨stF, h, -, -, -, hw, -⟩ := rbWriteN_spec vs st hc hl hN
    exact ⟨stF, h, hw, by omega⟩

/-- Witness for `c3_write_sequencing` at a concrete state. -/
theorem c3_write_sequencing_witness :
    rbWrite (⟨2, 3, [10, 20], 0⟩ : RBState Int) 7
      = ((⟨2, 3, [10, 20], 0⟩ : RBState Int).writeSeq, WOutcome.ok
        { (⟨2, 3, [10, 20], 0⟩ : RBState Int) with
            writeSeq := (⟨2, 3, [10, 20], 0⟩ : RBState Int).writeSeq + 1,
            slots := (⟨2, 3, [10, 20], 0⟩ : RBState Int).slots.set
              ((⟨2, 3, [10, 20], 0⟩ : RBState Int).writeSeq
                % (⟨2, 3, [10, 20], 0⟩ : RBState Int).capacity) 7 }) ∧
    ∃ stF : RBState Int,
      rbWriteN (⟨2, 3, [10, 20], 0⟩ : RBState Int) [7, 8, 9]
          = some (List.range' (⟨2, 3, [10, 20], 0⟩ : RBState Int).writeSeq
              [(7 : Int), 8, 9].length, stF) ∧
      stF.writeSeq = (⟨2, 3, [10, 20], 0⟩ : RBState Int).writeSeq
          + [(7 : Int), 8, 9].length ∧
      (⟨2, 3, [10, 20], 0⟩ : RBState Int).writeSeq ≤ stF.writeSeq :=
  c3_write_sequencing (⟨2, 3, [10, 20], 0⟩ : RBState Int) 7 [7, 8, 9]
    (by decide) (by decide) (by decide) (by decide)

/-- **C4** (End-to-end scenario): on a capacity-10 ring over `int32` payloads,
one handle writes `1 ..= 5` (sequence numbers `0 .. 4`); a second handle that
attaches afterwards gets `5` from its first `read` call and the `Empty` error
from a second `read` with no intervening write. -/
theorem c4_end_to_end :
    rbWriteN (rbInit 10 (0 : Int)) [1, 2, 3, 4, 5]
        = some ([0, 1, 2, 3, 4],
            (⟨10, 5, [1, 2, 3, 4, 5, 0, 0, 0, 0, 0], 0⟩ : RBState Int)) ∧
    rbRead (rbAttach (⟨10, 5, [1, 2, 3, 4, 5, 0, 0, 0, 0, 0], 0⟩ : RBState Int))
        = (ReadOutcome.ok 5,
            (⟨10, 5, [1, 2, 3, 4, 5, 0, 0, 0, 0, 0], 5⟩ : RBState Int)) ∧
    rbRead (⟨10, 5, [1, 2, 3, 4, 5, 0, 0, 0, 0, 0], 5⟩ : RBState Int)
        = (ReadOutcome.empty,
            (⟨10, 5, [1, 2, 3, 4, 5, 0, 0, 0, 0, 0], 5⟩ : RBState Int)) :=
  ⟨by decide, by decide, by decide⟩

/-- **C5** counterexample: after `P = 1` write (value `42`) into a fresh
capacity-2 ring, a consumer attaching afterwards has its very first `read`
return `42` — the value of write number `P`, one of the `P` already-written
values — rather than observing none of them and having its first successful
read correspond to write `P + 1`. -/
theorem c5_counterexample :
    rbWriteN (rbInit 2 (0 : Int)) [42]
        = some ([0], (⟨2, 1, [42, 0], 0⟩ : RBState Int)) ∧
    (rbRead (rbAttach (⟨2, 1, [42, 0], 0⟩ : RBState Int))).1
        = ReadOutcome.ok 42 :=
  ⟨by decide, by decide⟩

/-- **C5** amended (consumer skip-to-latest, actual behaviour): a consumer
created after `P ≥ 1` writes, on its first `read`, jumps its cursor to `P` and
returns the value of write number `P` (the latest) — writes `1 .. P - 1` are
skipped — and a further `read` with no intervening write returns the `Empty`
error, so the next successful read corresponds to write `P + 1`. -/
theorem c5_skip_to_latest_amended (cap : Nat) (d : α) (vs : List α)
    (hc : 0 < cap) (hP : 1 ≤ vs.length) (hU : vs.length < USIZE) :
    ∃ stF : RBState α,
      rbWriteN (rbInit cap d) vs = some (List.range' 0 vs.length, stF) ∧
      stF.writeSeq = vs.length ∧
      (∀ x, vs.getLast? = some x →
        rbRead (rbAttach stF)
          = (ReadOutcome.ok x, { stF with readSeq := vs.length })) ∧
      rbRead { stF with readSeq := vs.length }
        = (ReadOutcome.empty, { stF with readSeq := vs.length }) := by
  have hinit : (rbInit cap d : RBState α).slots.length = cap := by
    simp [rbInit]
  obtain ⟨stF, hN, hcap, hlen, hread, hwseq, hlast⟩ :=
    rbWriteN_spec vs (rbInit cap d) hc hinit (by simpa [rbInit] using hU)
  simp only [rbInit] at hcap hlen hread hwseq hlast
  replace hlen : stF.slots.length = cap := by simpa using hlen
  replace hwseq : stF.writeSeq = vs.length := by simpa using hwseq
  simp only [Nat.zero_add] at hlast
  refine ⟨stF, by simpa [rbInit] using hN, hwseq, ?_, ?_⟩
  · intro x hx
    have hget := hlast x hx
    have hr1 : rbRead (rbAttach stF)
        = rbReadSlot { stF with readSeq := stF.writeSeq } := by
      simp [rbRead, rbAttach]
    obtain ⟨u, hu, hgu⟩ := rbReadSlot_ok_of { stF with readSeq := stF.writeSeq }
      (by simp [hwseq]; omega) (by simpa [hcap] using hc) (by simp [hlen, hcap])
    have hux : u = x := by
      simp only [hwseq, hcap] at hgu
      rw [hget] at hgu
      exact (Option.some.inj hgu).symm
    subst hux
    rw [hr1, hu, hwseq]
  · have hne : ¬ vs.length = 0 := by omega
    simp [rbRead, hne, hwseq]

/-- Witness for `c5_skip_to_latest_amended` at a concrete scenario. -/
theorem c5_skip_to_latest_amended_witness :
    ∃ stF : RBState Int,
      rbWriteN (rbInit 2 (0 : Int)) [41, 42]
          = some (List.range' 0 [(41 : Int), 42].length, stF) ∧
      stF.writeSeq = [(41 : Int), 42].length ∧
      (∀ x, [(41 : Int), 42].getLast? = some x →
        rbRead (rbAttach stF)
          = (ReadOutcome.ok x, { stF with readSeq := [(41 : Int), 42].length })) ∧
      rbRead { stF with readSeq := [(41 : Int), 42].length }
        = (ReadOutcome.empty, { stF with readSeq := [(41 : Int), 42].length }) :=
  c5_skip_to_latest_amended 2 (0 : Int) [41, 42] (by decide) (by decide) (by decide)

/-- **C9** amended (segment teardown, actual behaviour): on drop, the unmap is
always attempted; only when the stored descriptor is nonzero is the named
object unlinked (exactly when the handle is the owner) and the descriptor
closed — with a zero descriptor neither unlink nor close is attempted.  The
set of attempted steps does not depend on which steps fail (no failure skips a
later step), and the drop always returns (failures are only logged). -/
theorem c9_teardown_amended (h : HandleBits) (u l c : Bool) :
    (memoryHandleDrop h u l c).1 =
      [TeardownStep.unmap] ++
        (if h.fd ≠ 0 then
          (if h.owner then [TeardownStep.unlink] else []) ++ [TeardownStep.closeFd]
        else []) ∧
    (memoryHandleDrop h u l c).1 = (memoryHandleDrop h false false false).1 ∧
    TeardownStep.unmap ∈ (memoryHandleDrop h u l c).1 ∧
    (TeardownStep.unlink ∈ (memoryHandleDrop h u l c).1 ↔ h.fd ≠ 0 ∧ h.owner) ∧
    (TeardownStep.closeFd ∈ (memoryHandleDrop h u l c).1 ↔ h.fd ≠ 0) := by
  by_cases hfd : h.fd = 0 <;> by_cases how : h.owner <;>
    simp [memoryHandleDrop, hfd, how]

/-- **C9** counterexample: for an owner handle whose stored descriptor is `0`,
the drop neither closes the descriptor nor unlinks the named object, against
the claim that the descriptor is always closed and that unlinking happens
whenever the handle is the owner. -/
theorem c9_counterexample :
    TeardownStep.closeFd ∉ (memoryHandleDrop ⟨0, true⟩ false false false).1 ∧
    TeardownStep.unlink ∉ (memoryHandleDrop ⟨0, true⟩ false false false).1 :=
  ⟨by decide, by decide⟩

/-- Witness for `c2_read_policy` at a concrete state: a cursor at `1` with the
shared counter at `3` advances to exactly `2`. -/
theorem c2_read_policy_witness :
    (rbRead (⟨2, 3, [10, 20], 1⟩ : RBState Int)).2.readSeq = 1 + 1 :=
  (c2_read_policy (⟨2, 3, [10, 20], 1⟩ : RBState Int) (by decide) (by decide)).2.1
    (by decide) (by decide)

/-- **C6** (SharedRwLock layout and consumed span): at any nonnull address,
`SharedRwLock::new` aligns the address to the native pointer width, places the
control block at the aligned address and the payload value immediately after
it, and consumes `padding + control-block size + payload size` bytes;
`try_into` over the same address computes the same two pointers and the same
consumed span, for every memory content, without performing any write (the
memory comes back unchanged). -/
theorem c6_rwlock_layout (L tsz : Nat) (initErr : Nat → Option Int)
    (σ : Mem α) (mem : Nat) (v : α)
    (hok : initErr (mem + alignOff mem) = none) (hmem : mem ≠ 0) :
    (∀ τ : Mem α, sharedRwLockTryInto α L tsz τ mem
        = Except.ok ((⟨mem + alignOff mem, mem + alignOff mem + L⟩,
            alignOff mem + L + tsz), τ)) ∧
    sharedRwLockNew L tsz initErr σ mem v
        = Except.ok ((⟨mem + alignOff mem, mem + alignOff mem + L⟩,
            alignOff mem + L + tsz),
          { σ with locks := Function.update σ.locks (mem + alignOff mem) true,
                   vals := Function.update σ.vals
                     (mem + alignOff mem + L) (some v) }) ∧
    (mem + alignOff mem) % ptrSize = 0 := by
  refine ⟨?_, ?_, alignOff_add mem⟩
  · intro τ
    simp only [sharedRwLockTryInto]
    rw [if_neg (by omega)]
  · simp only [sharedRwLockNew, hok]

/-- Witness for `c6_rwlock_layout` at a concrete address and memory. -/
theorem c6_rwlock_layout_witness :
    sharedRwLockTryInto Int 56 4 memZero 3
        = Except.ok ((⟨3 + alignOff 3, 3 + alignOff 3 + 56⟩,
            alignOff 3 + 56 + 4), memZero) :=
  (c6_rwlock_layout 56 4 (fun _ => none) memZero 3 (7 : Int) rfl
    (by decide)).1 memZero

/-- The slot-construction loop of the owner path never produces an `Err`: a
slot failure surfaces as a panic (the `.unwrap()`), never as a returned
error. -/
theorem mpmcNewSlots_ne_err (L tsz : Nat) (initErr : Nat → Option Int)
    (d : α) :
    ∀ (n ptr : Nat) (σ : Mem α) (e : RwLockError),
      mpmcNewSlots L tsz initErr d n ptr σ ≠ RustRes.err e := by
  intro n
  induction n with
  | zero =>
    intro ptr σ e h
    cases h
  | succ n ih =>
    intro ptr σ e h
    simp only [mpmcNewSlots] at h
    split at h
    · cases h
    · split at h
      · cases h
      next e3 hrec => exact ih _ _ e3 hrec
      · cases h

/-- **C7** (the code contradicts the claim): when the first slot's lock
initialization fails — the `initErr` oracle reports error code `e` at the
slot-0 control-block address `mem + padding + 16` — the owner path of
`MpmcRingBuffer::new` panics at the `.unwrap()` of the `SharedRwLock::new`
result; moreover the owner path can never return an `Err` at all, so the
initialization error is not returned to the caller. -/
theorem c7_new_panics_on_slot_failure (L tsz : Nat) (initErr : Nat → Option Int)
    (σ : Mem α) (mem cap : Nat) (d : α) (e : Int)
    (hcap : 0 < cap) (hfail : initErr (mem + alignOff mem + 16) = some e) :
    mpmcNew L tsz initErr true σ mem cap d = RustRes.panicked ∧
    ∀ (initErr2 : Nat → Option Int) (σ2 : Mem α) (mem2 cap2 : Nat) (d2 : α)
      (e2 : RwLockError),
      mpmcNew L tsz initErr2 true σ2 mem2 cap2 d2 ≠ RustRes.err e2 := by
  constructor
  · obtain ⟨n, rfl⟩ : ∃ n, cap = n + 1 := ⟨cap - 1, by omega⟩
    have hB : alignOff (mem + alignOff mem + 16) = 0 := by
      apply alignOff_zero_of_aligned
      have h8 := alignOff_add mem
      simp only [ptrSize] at h8 ⊢
      omega
    have hbase : mem + (8 + 8 + alignOff mem) = mem + alignOff mem + 16 := by
      omega
    have hslots : ∀ σ2 : Mem α,
        mpmcNewSlots L tsz initErr d (n + 1) (mem + alignOff mem + 16) σ2
          = RustRes.panicked := by
      intro σ2
      simp only [mpmcNewSlots, hB, Nat.add_zero, sharedRwLockNew, hfail]
    show mpmcNewOwner L tsz initErr σ mem (n + 1) d = RustRes.panicked
    simp only [mpmcNewOwner, hbase, hslots]
  · intro initErr2 σ2 mem2 cap2 d2 e2 h
    rw [show mpmcNew L tsz initErr2 true σ2 mem2 cap2 d2
        = mpmcNewOwner L tsz initErr2 σ2 mem2 cap2 d2 from rfl] at h
    simp only [mpmcNewOwner] at h
    split at h
    · cases h
    next e3 hrec => exact mpmcNewSlots_ne_err L tsz initErr2 d2 _ _ _ e3 hrec
    · cases h

/-- Witness for `c7_new_panics_on_slot_failure` at a concrete configuration:
with base address `8`, slot 0's control block sits at `24`, where the oracle
reports init failure code `22`. -/
theorem c7_new_panics_on_slot_failure_witness :
    mpmcNew 56 4 (fun a => if a = 24 then some 22 else none) true memZero 8 1
        (0 : Int) = RustRes.panicked :=
  (c7_new_panics_on_slot_failure 56 4 (fun a => if a = 24 then some 22 else none)
    memZero 8 1 (0 : Int) 22 (by decide) (by decide)).1

/-- The attach-side slot loop always succeeds when started at a nonnull
cursor, and the cursor only moves forward. -/
theorem mpmcTryIntoSlots_ok (α : Type) (L tsz : Nat) (σ : Mem α) :
    ∀ (n ptr : Nat), 0 < ptr →
      ∃ hs ptrF, mpmcTryIntoSlots α L tsz σ n ptr = some (hs, ptrF) ∧
        ptr ≤ ptrF := by
  intro n
  induction n with
  | zero =>
    intro ptr _h
    exact ⟨[], ptr, rfl, Nat.le_refl _⟩
  | succ n ih =>
    intro ptr h
    obtain ⟨hs, ptrF, hrec, hle⟩ :=
      ih (ptr + (alignOff (ptr + alignOff ptr) + L + tsz + alignOff ptr))
        (by omega)
    refine ⟨⟨ptr + alignOff ptr + alignOff (ptr + alignOff ptr),
        ptr + alignOff ptr + alignOff (ptr + alignOff ptr) + L⟩ :: hs, ptrF,
      ?_, by omega⟩
    simp only [mpmcTryIntoSlots, sharedRwLockTryInto]
    rw [if_neg (by omega)]
    simp only [hrec]

/-- **C8** amended (attach validity check, actual behaviour):
`MpmcRingBuffer::try_into` returns the invalid-pointer attach error exactly
when the capacity pointer is null (the base address is `0`; the post-loop
cursor it also checks is never null); for any nonnull base it returns a
reconstructed handle without touching the memory.  The check runs only after
the capacity has already been read through the — possibly null — capacity
pointer and all slots have been reconstructed: the dereference trace always
contains the capacity pointer, error or not. -/
theorem c8_attach_check_amended (L tsz : Nat) (σ : Mem α) (mem : Nat) :
    (mpmcTryInto L tsz σ mem = RustRes.err RwLockError.intoError ↔ mem = 0) ∧
    (mem ≠ 0 → ∃ hnd : RBHandle,
      mpmcTryInto L tsz σ mem = RustRes.ok (hnd, σ)) ∧
    mpmcTryIntoReads mem = [mem + alignOff mem] := by
  obtain ⟨hs, ptrF, hslots, hle⟩ :=
    mpmcTryIntoSlots_ok α L tsz σ (σ.usizes (mem + alignOff mem))
      (mem + (8 + 8 + alignOff mem)) (by omega)
  have hok : mem ≠ 0 → mpmcTryInto L tsz σ mem
      = RustRes.ok (⟨hs, mem + alignOff mem, mem + (alignOff mem + 8)⟩, σ) := by
    intro hmem
    simp only [mpmcTryInto, hslots]
    rw [if_neg (by omega)]
  refine ⟨⟨?_, ?_⟩, fun hmem => ⟨_, hok hmem⟩, rfl⟩
  · intro h
    by_contra hmem
    rw [hok hmem] at h
    cases h
  · intro h0
    subst h0
    simp only [mpmcTryInto, hslots]
    rw [if_pos (Or.inl (by decide))]

/-- **C8** counterexample: attaching at the null base address returns the
invalid-pointer error, but only after the loop — the dereference trace shows
the null capacity pointer (address `0`) was read through first, so the error
is not returned "before using those pointers". -/
theorem c8_null_deref_counterexample :
    mpmcTryInto 56 4 memZero 0 = RustRes.err RwLockError.intoError ∧
    mpmcTryIntoReads 0 = [0] :=
  ⟨rfl, rfl⟩

/-- Under a fault-free lock-init oracle the owner slot loop always succeeds. -/
theorem mpmcNewSlots_total (L tsz : Nat) (initErr : Nat → Option Int) (d : α)
    (hok : ∀ a, initErr a = none) :
    ∀ (n ptr : Nat) (σ : Mem α), ∃ hs ptrF σF,
      mpmcNewSlots L tsz initErr d n ptr σ = RustRes.ok (hs, ptrF, σF) := by
  intro n
  induction n with
  | zero =>
    intro ptr σ
    exact ⟨[], ptr, σ, rfl⟩
  | succ n ih =>
    intro ptr σ
    obtain ⟨hs, ptrF, σF, hrec⟩ := ih
      (ptr + (alignOff (ptr + alignOff ptr) + L + tsz + alignOff ptr))
      { σ with
          locks := Function.update σ.locks
            (ptr + alignOff ptr + alignOff (ptr + alignOff ptr)) true,
          vals := Function.update σ.vals
            (ptr + alignOff ptr + alignOff (ptr + alignOff ptr) + L) (some d) }
    refine ⟨⟨ptr + alignOff ptr + alignOff (ptr + alignOff ptr),
        ptr + alignOff ptr + alignOff (ptr + alignOff ptr) + L⟩ :: hs,
      ptrF, σF, ?_⟩
    simp only [mpmcNewSlots, sharedRwLockNew, hok]
    simp only [hrec]

/-- The attach loop retraces the owner loop exactly: whenever the owner loop
succeeds from a nonnull cursor, the attach loop — over any memory content —
produces the same slot handles and the same final cursor; the owner loop never
moves the cursor backwards, never touches the pointer-sized cells, and
produces one handle per slot. -/
theorem mpmcSlots_new_tryInto (L tsz : Nat) (initErr : Nat → Option Int)
    (d : α) :
    ∀ (n ptr : Nat) (σ σF : Mem α) (hs : List RwLockHandle) (ptrF : Nat),
      0 < ptr →
      mpmcNewSlots L tsz initErr d n ptr σ = RustRes.ok (hs, ptrF, σF) →
      (∀ τ : Mem α, mpmcTryIntoSlots α L tsz τ n ptr = some (hs, ptrF)) ∧
      ptr ≤ ptrF ∧ σF.usizes = σ.usizes ∧ hs.length = n := by
  intro n
  induction n with
  | zero =>
    intro ptr σ σF hs ptrF _hp h
    cases h
    exact ⟨fun τ => rfl, Nat.le_refl _, rfl, rfl⟩
  | succ n ih =>
    intro ptr σ σF hs ptrF hp h
    simp only [mpmcNewSlots, sharedRwLockNew] at h
    split at h
    · cases h
    next heq =>
      split at heq
      · cases heq
      next hie =>
        cases heq
        split at h <;> try cases h
        rename_i slots heq2
        obtain ⟨htry, hle, husz, hlen⟩ := ih _ _ _ _ _ (by omega) heq2
        refine ⟨?_, by omega, by simpa using husz, by simp [hlen]⟩
        intro τ
        simp only [mpmcTryIntoSlots, sharedRwLockTryInto]
        rw [if_neg (by omega)]
        simp only [htry τ]

/-- **C1** (Round-trip layout): for any nonnull base address, capacity
`C ≥ 1` and payload size, with fault-free lock initialization, the owner's
`MpmcRingBuffer::new` succeeds, and the attach `try_into` over the resulting
bytes reproduces the identical handle — same capacity pointer, same
write-sequence-counter pointer, and the same `C` slot addresses — while
reading the written capacity back out; and a payload value stored through the
owner's slot `i` is read back at the attaching side's slot `i`. -/
theorem c1_roundtrip_layout (L tsz : Nat) (initErr : Nat → Option Int)
    (σ : Mem α) (mem cap : Nat) (d : α)
    (hmem : 0 < mem) (hcap : 1 ≤ cap) (hok : ∀ a, initErr a = none) :
    ∃ (h : RBHandle) (σ1 : Mem α),
      mpmcNew L tsz initErr true σ mem cap d = RustRes.ok (h, σ1) ∧
      mpmcTryInto L tsz σ1 mem = RustRes.ok (h, σ1) ∧
      σ1.usizes h.capacity = cap ∧
      h.buffer.length = cap ∧
      (∀ (i : Nat) (s : RwLockHandle) (v : α), h.buffer.get? i = some s →
        mpmcTryInto L tsz (writeVal σ1 s.data v) mem
            = RustRes.ok (h, writeVal σ1 s.data v) ∧
        (writeVal σ1 s.data v).vals s.data = some v) := by
  obtain ⟨hs, ptrF, σF, hnewslots⟩ := mpmcNewSlots_total L tsz initErr d hok
    cap (mem + (8 + 8 + alignOff mem))
    { σ with usizes := Function.update (Function.update σ.usizes (mem + alignOff mem) cap) (mem + (alignOff mem + 8)) 0 }
  obtain ⟨htry, hle, husz, hlen⟩ := mpmcSlots_new_tryInto L tsz initErr d
    cap (mem + (8 + 8 + alignOff mem)) _ σF hs ptrF (by omega) hnewslots
  have hnew : mpmcNew L tsz initErr true σ mem cap d
      = RustRes.ok (⟨hs, mem + alignOff mem, mem + (alignOff mem + 8)⟩, σF) := by
    show mpmcNewOwner L tsz initErr σ mem cap d = _
    simp only [mpmcNewOwner, hnewslots]
  have hcapval : σF.usizes (mem + alignOff mem) = cap := by
    rw [husz]
    show Function.update
        (Function.update σ.usizes (mem + alignOff mem) cap)
        (mem + (alignOff mem + 8)) 0 (mem + alignOff mem) = cap
    rw [Function.update_noteq (by omega), Function.update_same]
  have htryok : ∀ τ : Mem α, τ.usizes (mem + alignOff mem) = cap →
      mpmcTryInto L tsz τ mem = RustRes.ok
        (⟨hs, mem + alignOff mem, mem + (alignOff mem + 8)⟩, τ) := by
    intro τ hτ
    simp only [mpmcTryInto, hτ, htry τ]
    rw [if_neg (by omega)]
  refine ⟨⟨hs, mem + alignOff mem, mem + (alignOff mem + 8)⟩, σF, hnew,
    htryok σF hcapval, hcapval, by simpa using hlen, ?_⟩
  intro i s v _hsi
  refine ⟨htryok (writeVal σF s.data v) hcapval, ?_⟩
  simp [writeVal]

/-- Witness for `c1_roundtrip_layout` at a concrete configuration (base `8`,
capacity `1`, `int32` payload). -/
theorem c1_roundtrip_layout_witness :
    ∃ (h : RBHandle) (σ1 : Mem Int),
      mpmcNew 56 4 (fun _ => none) true memZero 8 1 (0 : Int)
          = RustRes.ok (h, σ1) ∧
      mpmcTryInto 56 4 σ1 8 = RustRes.ok (h, σ1) ∧
      σ1.usizes h.capacity = 1 ∧
      h.buffer.length = 1 ∧
      (∀ (i : Nat) (s : RwLockHandle) (v : Int), h.buffer.get? i = some s →
        mpmcTryInto 56 4 (writeVal σ1 s.data v) 8
            = RustRes.ok (h, writeVal σ1 s.data v) ∧
        (writeVal σ1 s.data v).vals s.data = some v) :=
  c1_roundtrip_layout 56 4 (fun _ => none) memZero 8 1 (0 : Int)
    (by decide) (by decide) (fun a => rfl)

/-- Witness for `c10_slot_index_safety` at a concrete state. -/
theorem c10_slot_index_safety_witness :
    (⟨2, 3, [10, 20], 1⟩ : RBState Int).writeSeq
        % (⟨2, 3, [10, 20], 1⟩ : RBState Int).capacity
      < (⟨2, 3, [10, 20], 1⟩ : RBState Int).capacity ∧
    (rbWrite (⟨2, 3, [10, 20], 1⟩ : RBState Int) 7).2 = WOutcome.ok
      { (⟨2, 3, [10, 20], 1⟩ : RBState Int) with
          writeSeq := ((⟨2, 3, [10, 20], 1⟩ : RBState Int).writeSeq + 1) % USIZE,
          slots := (⟨2, 3, [10, 20], 1⟩ : RBState Int).slots.set
            ((⟨2, 3, [10, 20], 1⟩ : RBState Int).writeSeq
              % (⟨2, 3, [10, 20], 1⟩ : RBState Int).capacity) 7 } :=
  (c10_slot_index_safety (⟨2, 3, [10, 20], 1⟩ : RBState Int) 7
    (by decide) (by decide)).1

end Zenrc
